import Mathlib

/-!
# Cast pairing and streaming protocol — shallow embedding

A shallow embedding, in Lean 4, of the cast receiver's pairing and
streaming code (`register`, `advertiseCode`, `getCastData`,
`storeCastData` / `readCastData`, `renderableImageURLs` and its helpers),
together with theorems settling the specification claims about it.

External collaborators (the network gateway, the crypto worker, the
Chromecast SDK context, `URL.createObjectURL`) are passed in as function
parameters; JavaScript `string | undefined` values become `Option String`,
thrown exceptions become `Except String`, and the truthiness tests that
the code performs on strings are modelled explicitly (the empty string is
falsy in JavaScript).
-/

set_option autoImplicit false

namespace Cast

/-- A fragment of the JavaScript value universe, enough to model the
`unknown` payloads that cross the process boundary (the handshake message
`data`, and the decrypted cast payload handed to `storeCastData`). -/
inductive JSValue where
  | undefined
  | null
  | bool (b : Bool)
  | num (n : Int)
  | str (s : String)
  | obj (fields : List (String × JSValue))
deriving Inhabited

namespace JSValue

/-- JavaScript property lookup on an object literal: the first binding of
the key wins; a missing key reads as `undefined`. -/
def lookup : List (String × JSValue) → String → JSValue
  | [], _ => .undefined
  | (k, v) :: rest, key => if k == key then v else lookup rest key

/-- JavaScript string coercion, as applied by `localStorage.setItem` to its
value argument. -/
def coerceToString : JSValue → String
  | .undefined => "undefined"
  | .null => "null"
  | .bool b => if b then "true" else "false"
  | .num n => toString n
  | .str s => s
  | .obj _ => "[object Object]"

end JSValue

/-- JavaScript truthiness of a `string | undefined` value: `undefined` and
the empty string are falsy, every other string is truthy. -/
def truthyStr : Option String → Bool
  | none => false
  | some s => !(s == "")

/-! ## Advertiser (`advertiseCode`'s incoming message listener) -/

/-- The extraction of the optional `collectionID` from the incoming
handshake message `data`:
`data && typeof data == "object" && typeof data["collectionID"] == "string"
 ? data["collectionID"] : undefined`.
Only a truthy object whose `collectionID` property is a string yields a
collection ID. -/
def extractCollectionID (data : JSValue) : Option String :=
  match data with
  | .obj fields =>
    match JSValue.lookup fields "collectionID" with
    | .str s => some s
    | _ => none
  | _ => none

/-- The visible outcome of one run of the incoming message listener:
either the session is torn down (`context.stop()`), or a `{code}` reply is
sent to `senderId`. The two are mutually exclusive in the code: every
`restart` is followed by `return`. -/
inductive ListenerAction where
  | restart (reason : String)
  | reply (senderId : String) (code : String)
deriving DecidableEq, Repr

/-- Whether the listener outcome tears the session down. -/
def ListenerAction.isRestart : ListenerAction → Bool
  | .restart _ => true
  | .reply _ _ => false

/-- The state and action produced by one run of the listener: the value of
the `pairedCollectionID` variable afterwards, and the outward action. -/
structure ListenerResult where
  pairedCollectionID : Option String
  action : ListenerAction
deriving DecidableEq, Repr

/-- One run of `incomingMessageListener` in `advertiseCode`, as a function
of the captured mutable `pairedCollectionID`, the value the `pairingCode`
callback returns at this moment, and the incoming `{senderId, data}`.

Faithful to the source:
* the guard is `if (pairedCollectionID && pairedCollectionID != collectionID)`,
  so the comparison only happens when `pairedCollectionID` is truthy;
* otherwise `pairedCollectionID = collectionID` is assigned *before* the
  code lookup, so the binding is updated even on the no-code restart path;
* `if (!code)` restarts when the callback returns `undefined` (or the
  falsy empty string). -/
def incomingMessageListener (pairedCollectionID : Option String)
    (pairingCode : Option String) (senderId : String) (data : JSValue) :
    ListenerResult :=
  let collectionID := extractCollectionID data
  if truthyStr pairedCollectionID && !(pairedCollectionID == collectionID) then
    ⟨pairedCollectionID,
      .restart "incoming request for a new collection"⟩
  else
    let paired := collectionID
    let code := pairingCode
    if !truthyStr code then
      ⟨paired, .restart "we got a pairing request when refreshing pairing codes"⟩
    else
      ⟨paired, .reply senderId (code.getD "")⟩

/-! ## Registrar (`register`) -/

/-- The result of `register`: a pairing code shown on the screen and the
base64-encoded keypair registered with the server. -/
structure Registration where
  pairingCode : String
  publicKeyB64 : String
  privateKeyB64 : String
deriving DecidableEq, Repr

/-- The observable outcome of one call to `castGateway.registerDevice`:
`none` when the call threw (the catch branch logs and falls through), and
`some code` when it returned `code`. -/
abbrev RegisterAttempt := Option String

/-- The `while (true)` retry loop inside `register`, run with `fuel`
remaining iterations, about to make the attempt of index `k` (0-based).
Each iteration calls `registerDevice` once; on a truthy `pairingCode` it
breaks out of the loop, otherwise it waits 10000 ms and retries.

Returns `none` when the fuel runs out with the loop still spinning, and
otherwise `some (code, calls, waitedMs)`: the pairing code the loop broke
with, the total number of `registerDevice` calls made, and the total
milliseconds spent in `wait`. -/
def registerLoop (attempts : Nat → RegisterAttempt) :
    Nat → Nat → Option (String × Nat × Nat)
  | 0, _ => none
  | fuel + 1, k =>
    match attempts k with
    | some code =>
      -- `if (pairingCode) break;` — the empty string is falsy and loops on.
      if code == "" then registerLoop attempts fuel (k + 1)
      else some (code, k + 1, 10000 * k)
    | none => registerLoop attempts fuel (k + 1)

/-- `register`, with the keypair generation and the gateway call abstracted:
`keypair` is the (base64) public/private pair produced by
`generateKeyPair`, and `attempts k` is what the `k`-th `registerDevice`
call does. `fuel` bounds how many loop iterations we are willing to run;
the real loop is unbounded, which is recovered by quantifying over `fuel`.

Returns the `Registration` together with the number of calls made and the
milliseconds waited. -/
def register (keypair : String × String) (attempts : Nat → RegisterAttempt)
    (fuel : Nat) : Option (Registration × Nat × Nat) :=
  (registerLoop attempts fuel 0).map fun r =>
    (⟨r.1, keypair.1, keypair.2⟩, r.2.1, r.2.2)

/-- Attempt `k` succeeds in the sense of the loop's break condition: the
call returned, and returned a truthy (non-empty) code. -/
def attemptSucceeds (attempts : Nat → RegisterAttempt) (k : Nat) : Prop :=
  truthyStr (attempts k) = true

instance (attempts : Nat → RegisterAttempt) (k : Nat) :
    Decidable (attemptSucceeds attempts k) := by
  unfold attemptSucceeds; infer_instance

/-! ## CredentialPoller (`getCastData`) -/

/-- One call to `getCastData`, with its collaborators abstracted:
* `gatewayGetCastData` is `castGateway.getCastData`, returning the
  encrypted payload for a pairing code, or `undefined` when none exists;
* `boxSealOpen enc pub priv` is the libsodium seal-open, failing when the
  payload does not decrypt under the keypair;
* `atob` is base64 decoding, failing on malformed input;
* `parseJSON` is `JSON.parse`, failing on malformed JSON.

`.ok none` is the "no data yet" result (`if (!encryptedCastData) return;`,
so an empty string also counts as no data); `.error e` is a thrown
exception, which the function never catches. -/
def getCastData (gatewayGetCastData : String → Option String)
    (boxSealOpen : String → String → String → Except String String)
    (atob : String → Except String String)
    (parseJSON : String → Except String JSValue)
    (registration : Registration) : Except String (Option JSValue) := do
  let encryptedCastData := gatewayGetCastData registration.pairingCode
  if !truthyStr encryptedCastData then
    return none
  let decryptedCastData ← boxSealOpen (encryptedCastData.getD "")
    registration.publicKeyB64 registration.privateKeyB64
  let plaintext ← atob decryptedCastData
  let payload ← parseJSON plaintext
  return some payload

/-! ## Persisted local state (`storeCastData` / `readCastData`) -/

/-- `window.localStorage`, modelled as an association list of string keys
to string values (most recent write first). -/
abbrev LocalStorage := List (String × String)

/-- `localStorage.setItem`. -/
def setItem (store : LocalStorage) (key value : String) : LocalStorage :=
  (key, value) :: store.filter fun kv => !(kv.1 == key)

/-- `localStorage.getItem`: `none` stands for the `null` of a missing key. -/
def getItem (store : LocalStorage) (key : String) : Option String :=
  (store.find? fun kv => kv.1 == key).map Prod.snd

/-- `storeCastData`: throws unless the payload is a truthy object, then
iterates through *all* the keys of the payload object and saves each of
them to localStorage (the comment in the source is explicit that no
validation or filtering happens here). -/
def storeCastData (store : LocalStorage) (payload : JSValue) :
    Except String LocalStorage :=
  match payload with
  | .obj fields =>
    .ok (fields.foldl (fun st kv => setItem st kv.1 kv.2.coerceToString) store)
  | _ => .error "Unexpected cast data"

/-- The data needed to start the slideshow, read back from localStorage. -/
structure CastData where
  collectionKey : String
  castToken : String
deriving DecidableEq, Repr

/-- `ensureString` from `@/utils/ensure`: asserts that the value is a
(present) string, throwing otherwise. `localStorage.getItem` returns
`string | null`, so the only failing case here is a missing key. -/
def ensureString (v : Option String) : Except String String :=
  match v with
  | some s => .ok s
  | none => .error "Not a string"

/-- `readCastData`: reads `collectionKey` and `castToken` back from
localStorage, throwing if either is absent. -/
def readCastData (store : LocalStorage) : Except String CastData := do
  let collectionKey ← ensureString (getItem store "collectionKey")
  let castToken ← ensureString (getItem store "castToken")
  return ⟨collectionKey, castToken⟩

/-! ## Streamer: file records and decryption (`decryptEnteFile`) -/

/-- Modelled from the spec: the file type tag carried in the decrypted
metadata (`FILE_TYPE` from `@/media/file-type`, which is outside this
repository slice); the spec's §4.4 filter distinguishes image, video and
live-photo types. -/
inductive FILE_TYPE where
  | IMAGE
  | VIDEO
  | LIVE_PHOTO
  | OTHER
deriving DecidableEq, Repr

/-- An encrypted metadata blob: `{encryptedData, decryptionHeader}`. -/
structure EncMetadataBlob where
  encryptedData : String
  decryptionHeader : String
deriving DecidableEq, Repr

/-- An encrypted magic-metadata blob: `{version, count, data, header}`. -/
structure EncMagicMetadata where
  version : Nat
  count : Nat
  data : String
  header : String
deriving DecidableEq, Repr

/-- `file.info`: sizes reported by the server alongside the record. -/
structure FileInfo where
  fileSize : Nat
deriving DecidableEq, Repr

/-- An `EncryptedEnteFile` as consumed by `decryptEnteFile`: the per-file
key encrypted to the collection key, encrypted metadata, the two optional
magic-metadata blobs, and the rest of the (passed-through) record
properties that the cast code reads. -/
structure EncryptedEnteFile where
  id : Nat
  encryptedKey : String
  keyDecryptionNonce : String
  metadata : EncMetadataBlob
  magicMetadata : Option EncMagicMetadata
  pubMagicMetadata : Option EncMagicMetadata
  info : FileInfo
  updationTime : Nat
  isDeleted : Bool
deriving DecidableEq, Repr

/-- The decrypted file metadata fields that this code reads. -/
structure FileMetadata where
  fileType : FILE_TYPE
  title : String
  creationTime : Int
deriving DecidableEq, Repr

/-- The decrypted public-magic-metadata payload fields that this code
reads: optional overrides for creation time and title. -/
structure PubMagicData where
  editedTime : Option Int
  editedName : Option String
deriving DecidableEq, Repr

/-- A decrypted magic-metadata blob (payload kept generic, since the cast
code never reads it). -/
structure DecMagicMetadata where
  version : Nat
  count : Nat
  header : String
  data : JSValue

/-- A decrypted public-magic-metadata blob. -/
structure DecPubMagicMetadata where
  version : Nat
  count : Nat
  header : String
  data : PubMagicData

/-- A decrypted `EnteFile` as assembled by `decryptEnteFile`. -/
structure EnteFile where
  id : Nat
  key : String
  metadata : FileMetadata
  magicMetadata : Option DecMagicMetadata
  pubMagicMetadata : Option DecPubMagicMetadata
  info : FileInfo
  updationTime : Nat

/-- The crypto worker operations that `decryptEnteFile` calls, abstracted:
`decryptB64` decrypts the per-file key with the collection key, and the
three `decryptMetadata` uses are split by the result type the caller
expects at each site. Every operation can fail (throw). -/
structure CryptoWorker where
  decryptB64 : String → String → String → Except String String
  decryptMetadata : String → String → String → Except String FileMetadata
  decryptMagicData : String → String → String → Except String JSValue
  decryptPubMagicData : String → String → String → Except String PubMagicData

/-- `decryptEnteFile`: decrypt the file key with the collection key, then
the metadata (and the optional magic metadata blobs) with the file key,
and apply the `editedTime` / `editedName` overrides from the public magic
metadata (JavaScript truthiness: an override of `0` or `""` is ignored).
Any failure of a worker call propagates (there is no try/catch here). -/
def decryptEnteFile (w : CryptoWorker) (encryptedFile : EncryptedEnteFile)
    (collectionKey : String) : Except String EnteFile := do
  let fileKey ← w.decryptB64 encryptedFile.encryptedKey
    encryptedFile.keyDecryptionNonce collectionKey
  let fileMetadata ← w.decryptMetadata encryptedFile.metadata.encryptedData
    encryptedFile.metadata.decryptionHeader fileKey
  let fileMagicMetadata : Option DecMagicMetadata ←
    match encryptedFile.magicMetadata with
    | some mm =>
      -- `if (magicMetadata?.data)`: skipped when absent or empty.
      if mm.data == "" then pure none
      else do
        let d ← w.decryptMagicData mm.data mm.header fileKey
        pure (some ⟨mm.version, mm.count, mm.header, d⟩)
    | none => pure none
  let filePubMagicMetadata : Option DecPubMagicMetadata ←
    match encryptedFile.pubMagicMetadata with
    | some pm =>
      if pm.data == "" then pure none
      else do
        let d ← w.decryptPubMagicData pm.data pm.header fileKey
        pure (some ⟨pm.version, pm.count, pm.header, d⟩)
    | none => pure none
  -- `if (file.pubMagicMetadata?.data.editedTime)`
  let metadataWithTime :=
    match filePubMagicMetadata with
    | some pm =>
      match pm.data.editedTime with
      | some t => if t == 0 then fileMetadata
                  else { fileMetadata with creationTime := t }
      | none => fileMetadata
    | none => fileMetadata
  -- `if (file.pubMagicMetadata?.data.editedName)`
  let metadataWithName :=
    match filePubMagicMetadata with
    | some pm =>
      match pm.data.editedName with
      | some n => if n == "" then metadataWithTime
                  else { metadataWithTime with title := n }
      | none => metadataWithTime
    | none => metadataWithTime
  return { id := encryptedFile.id, key := fileKey,
           metadata := metadataWithName,
           magicMetadata := fileMagicMetadata,
           pubMagicMetadata := filePubMagicMetadata,
           info := encryptedFile.info,
           updationTime := encryptedFile.updationTime }

/-! ## Streamer: eligibility (`isFileEligibleForCast`) -/

/-- Modelled from the spec: `nameAndExtension` from `@/next/file` (outside
this repository slice) splits a file name into the part before the last
dot and the extension after it; a name with no dot has no extension. -/
def nameAndExtension (fileName : String) : String × Option String :=
  let revChars := fileName.toList.reverse
  let revExt := revChars.takeWhile fun c => !(c == '.')
  if revExt.length == revChars.length then (fileName, none)
  else
    (String.mk ((revChars.drop (revExt.length + 1)).reverse),
     some (String.mk revExt.reverse))

/-- ASCII lowercasing of a string, character by character. -/
def lowercased (s : String) : String :=
  String.mk (s.toList.map Char.toLower)

/-- Modelled from the spec: `isNonWebImageFileExtension` from
`@/media/formats` (outside this repository slice) — membership of the
(lowercased) extension in a fixed list of image formats known to be
unrenderable in the web display surface (§4.4 step 4). -/
def isNonWebImageFileExtension (extension : Option String) : Bool :=
  match extension with
  | some e =>
    ["heic", "heif", "tif", "tiff", "arw", "cr2", "cr3", "nef",
     "raf", "rw2", "dng", "psd"].contains (lowercased e)
  | none => false

/-- `isImageOrLivePhoto`: the file's type is image or live photo. -/
def isImageOrLivePhoto (file : EnteFile) : Bool :=
  file.metadata.fileType == FILE_TYPE.IMAGE ||
    file.metadata.fileType == FILE_TYPE.LIVE_PHOTO

/-- `isFileEligibleForCast`: image or live photo, at most 100 MiB
(`file.info.fileSize > 100 * 1024 * 1024` rejects), and the title's
extension is not a known non-web-renderable image extension. -/
def isFileEligibleForCast (file : EnteFile) : Bool :=
  if !isImageOrLivePhoto file then false
  else if file.info.fileSize > 100 * 1024 * 1024 then false
  else if isNonWebImageFileExtension (nameAndExtension file.metadata.title).2 then
    false
  else true

/-! ## Streamer: collection diff pagination (`getEncryptedCollectionFiles`) -/

/-- One `/cast/diff` response page: `resp.data.diff` and
`resp.data.hasMore`. -/
structure DiffPage where
  diff : List EncryptedEnteFile
  hasMore : Bool
deriving Repr

/-- The non-deleted records of a page, in page order:
`diff.filter((file) => !file.isDeleted)`. -/
def liveRecords (page : DiffPage) : List EncryptedEnteFile :=
  page.diff.filter fun file => !file.isDeleted

/-- The watermark update of one loop iteration:
`sinceTime = diff.reduce((max, file) => Math.max(max, file.updationTime), sinceTime)`. -/
def advanceWatermark (page : DiffPage) (sinceTime : Nat) : Nat :=
  page.diff.foldl (fun mx file => max mx file.updationTime) sinceTime

/-- The `do … while (resp.data.hasMore)` loop of
`getEncryptedCollectionFiles`, with the server abstracted as a function
from the requested `sinceTime` to the response page. Alongside the
accumulated `files` we record the trace of `sinceTime` values actually
requested, so that theorems can speak about which pages were fetched.
`none` when `fuel` iterations were not enough to reach `hasMore = false`. -/
def diffLoop (server : Nat → DiffPage) :
    Nat → List EncryptedEnteFile → Nat → List Nat →
    Option (List EncryptedEnteFile × List Nat)
  | 0, _, _, _ => none
  | fuel + 1, files, sinceTime, requests =>
    let resp := server sinceTime
    let files' := files ++ liveRecords resp
    let sinceTime' := advanceWatermark resp sinceTime
    let requests' := requests ++ [sinceTime]
    if resp.hasMore then diffLoop server fuel files' sinceTime' requests'
    else some (files', requests')

/-- `getEncryptedCollectionFiles`: fetch the full listing by paginated
diff, starting from watermark 0. Returns the assembled listing and the
trace of requested watermarks. -/
def getEncryptedCollectionFiles (server : Nat → DiffPage) (fuel : Nat) :
    Option (List EncryptedEnteFile × List Nat) :=
  diffLoop server fuel [] 0 []

/-- The sequence of watermarks the loop requests: `watermarks s 0 = 0` and
each next watermark folds the `updationTime`s of the page served at the
previous one into it. -/
def watermarks (server : Nat → DiffPage) : Nat → Nat
  | 0 => 0
  | n + 1 => advanceWatermark (server (watermarks server n)) (watermarks server n)

/-! ## Streamer: the slideshow generator (`renderableImageURLs`) -/

/-- The update of the `previousURLs` FIFO retention queue performed right
before each yield, given the freshly created URL about to be displayed:

```
if (previousURLs.length > 1) URL.revokeObjectURL(previousURLs.shift());
previousURLs.push(url);
```

The first component is the live queue, the second accumulates the revoked
handles in revocation order. -/
def retentionStep : List String × List String → String → List String × List String
  | (a :: b :: rest, revoked), url => (b :: rest ++ [url], revoked ++ [a])
  | (prev, revoked), url => (prev ++ [url], revoked)

/-- The retention state after a sequence of emissions, starting from an
empty queue. -/
def retentionRun (urls : List String) : List String × List String :=
  urls.foldl retentionStep ([], [])

/-- The mutable state of one `renderableImageURLs` generator, as observed
at the suspension points: the retention queue and its revoked handles, the
`urls` buffer, the `haveEligibleFiles` flag of the current cycle, and the
sequence of yielded URL pairs so far. -/
structure PassState where
  previousURLs : List String
  revoked : List String
  urlsBuffer : List String
  haveEligibleFiles : Bool
  yielded : List (String × String)
deriving DecidableEq, Repr

/-- The generator's starting state. -/
def initialPassState : PassState :=
  ⟨[], [], [], false, []⟩

/-- The body of `for (const encryptedFile of encryptedFiles)`, iterated
over the (already shuffled) records of one cycle:

* `decryptEnteFile` runs *outside* any try/catch — its failure aborts the
  whole generator (second component `some error`);
* ineligible files are skipped;
* `createRenderableURL` (abstracted as `render`, covering download,
  content decryption, live-photo extraction, MIME detection and object-URL
  creation) runs inside try/catch — its failure logs and skips the file;
* on success the URL is pushed, `haveEligibleFiles` is set, the retention
  queue is rotated, and the pair `[url, ""]` is yielded (`nextURL` is the
  constant `""`; the preload path is commented out in the source). -/
def processPass (w : CryptoWorker) (render : EnteFile → Except String String)
    (collectionKey : String) :
    List EncryptedEnteFile → PassState → PassState × Option String
  | [], s => (s, none)
  | encryptedFile :: rest, s =>
    match decryptEnteFile w encryptedFile collectionKey with
    | .error e => (s, some e)
    | .ok file =>
      if !isFileEligibleForCast file then
        processPass w render collectionKey rest s
      else
        match render file with
        | .error _ => processPass w render collectionKey rest s
        | .ok url =>
          let urls := s.urlsBuffer ++ [url]
          match urls with
          | [] => (s, some "ensure: unreachable, the buffer was just pushed to")
          | u :: urlsRest =>
            let rotated := retentionStep (s.previousURLs, s.revoked) u
            processPass w render collectionKey rest
              { previousURLs := rotated.1, revoked := rotated.2,
                urlsBuffer := urlsRest, haveEligibleFiles := true,
                yielded := s.yielded ++ [(u, "")] }

/-- How one run of the generator ends, from the consumer's point of view. -/
inductive GenStatus where
  | completed
  | errored (e : String)
  | outOfFuel
deriving DecidableEq, Repr

/-- The `while (true)` cycle loop of `renderableImageURLs`: each cycle
fetches (and shuffles) the collection listing — abstracted as
`fetchCycle cycle`, whose failure propagates out of the generator — resets
`haveEligibleFiles`, runs the per-file pass, and either returns cleanly
when the pass produced nothing, or loops into the next cycle. `fuel`
bounds the number of cycles we unroll. -/
def runGenerator (fetchCycle : Nat → Except String (List EncryptedEnteFile))
    (w : CryptoWorker) (render : EnteFile → Except String String)
    (collectionKey : String) :
    Nat → Nat → PassState → PassState × GenStatus
  | 0, _, s => (s, .outOfFuel)
  | fuel + 1, cycle, s =>
    match fetchCycle cycle with
    | .error e => (s, .errored e)
    | .ok encryptedFiles =>
      match processPass w render collectionKey encryptedFiles
          { s with haveEligibleFiles := false } with
      | (s', some e) => (s', .errored e)
      | (s', none) =>
        if s'.haveEligibleFiles then
          runGenerator fetchCycle w render collectionKey fuel (cycle + 1) s'
        else (s', .completed)

/-- A full run of `renderableImageURLs` from the initial state. -/
def renderableImageURLs (fetchCycle : Nat → Except String (List EncryptedEnteFile))
    (w : CryptoWorker) (render : EnteFile → Except String String)
    (castData : CastData) (fuel : Nat) : PassState × GenStatus :=
  runGenerator fetchCycle w render castData.collectionKey fuel 0 initialPassState

/-! ## Concrete instances used by the theorems below -/

/-- A minimal encrypted record with the given id and updation time. -/
def mkEncRecord (i t : Nat) : EncryptedEnteFile :=
  ⟨i, "ek", "nonce", ⟨"md", "hdr"⟩, none, none, ⟨1000⟩, t, false⟩

/-- The two-page diff server of the pagination example: the page served at
watermark 0 holds records 1 and 2 (updation times 4 and 5) and reports
more; the page served at watermark 5 holds record 3 (updation time 7) and
reports no more. -/
def diffServerEx : Nat → DiffPage := fun sinceTime =>
  if sinceTime == 0 then ⟨[mkEncRecord 1 4, mkEncRecord 2 5], true⟩
  else if sinceTime == 5 then ⟨[mkEncRecord 3 7], false⟩
  else ⟨[], false⟩

/-- A worker whose decryptions all succeed, producing image metadata. -/
def imageWorker : CryptoWorker :=
  ⟨fun _ _ _ => .ok "filekey",
   fun _ _ _ => .ok ⟨FILE_TYPE.IMAGE, "photo.jpeg", 100⟩,
   fun _ _ _ => .ok .null,
   fun _ _ _ => .ok ⟨none, none⟩⟩

/-- A worker whose decryptions all succeed, producing video metadata. -/
def videoWorker : CryptoWorker :=
  ⟨fun _ _ _ => .ok "filekey",
   fun _ _ _ => .ok ⟨FILE_TYPE.VIDEO, "video.mp4", 100⟩,
   fun _ _ _ => .ok .null,
   fun _ _ _ => .ok ⟨none, none⟩⟩

/-- A worker whose per-file key decryption throws. -/
def failingKeyWorker : CryptoWorker :=
  ⟨fun _ _ _ => .error "file key decryption failed",
   imageWorker.decryptMetadata, imageWorker.decryptMagicData,
   imageWorker.decryptPubMagicData⟩

/-- A 150 MiB image with a web-renderable extension. -/
def image150MiB : EnteFile :=
  ⟨1, "k", ⟨FILE_TYPE.IMAGE, "photo.jpeg", 100⟩, none, none,
    ⟨150 * 1024 * 1024⟩, 0⟩

/-- A 50 MiB image with a web-renderable extension. -/
def image50MiB : EnteFile :=
  ⟨2, "k", ⟨FILE_TYPE.IMAGE, "photo.jpeg", 100⟩, none, none,
    ⟨50 * 1024 * 1024⟩, 0⟩

/-- A small video. -/
def videoFile : EnteFile :=
  ⟨3, "k", ⟨FILE_TYPE.VIDEO, "video.mp4", 100⟩, none, none,
    ⟨1024 * 1024⟩, 0⟩

/-- A small live photo with a web-renderable still extension. -/
def livePhotoFile : EnteFile :=
  ⟨4, "k", ⟨FILE_TYPE.LIVE_PHOTO, "live.jpeg", 100⟩, none, none,
    ⟨1024 * 1024⟩, 0⟩

end Cast

namespace Cast

/-! # Theorems settling the claims -/

/-! ## C1 — the Advertiser's incoming message listener -/

/-- **C1, counterexample.** The claim states that repeated handshake
requests carrying the same `collectionID` never terminate the session.
In the code they can: with `pairedCollectionID` bound to `"A"` (the third
conjunct shows that binding is reached by a normal first handshake), a
second request carrying the *same* `collectionID "A"` tears the session
down whenever `pairingCode()` has no code at that moment — the equality
guard is passed, but the no-code branch restarts. -/
theorem advertise_same_collection_can_restart :
    (incomingMessageListener (some "A") none "sender-1"
        (JSValue.obj [("collectionID", JSValue.str "A")])).action =
      .restart "we got a pairing request when refreshing pairing codes" ∧
    ((incomingMessageListener (some "A") none "sender-1"
        (JSValue.obj [("collectionID", JSValue.str "A")])).action).isRestart =
      true ∧
    incomingMessageListener none (some "123456") "sender-1"
        (JSValue.obj [("collectionID", JSValue.str "A")]) =
      ⟨some "A", .reply "sender-1" "123456"⟩ := by
  decide

/-- **C1, amended.** For every inbound handshake request:
* if `pairedCollectionID` is truthy (set to a non-empty string) and
  differs from the incoming `collectionID` under plain equality, the
  session is torn down and no reply is sent, the binding left as is;
* otherwise, if `pairingCode()` yields no truthy code at that moment, the
  binding is first updated to the incoming `collectionID` and the session
  is torn down without reply;
* otherwise the binding is set to the incoming `collectionID` and a
  `{code}` reply is sent to `senderId` with the code obtained at the
  moment of the request;
* in particular, a request repeating the currently bound `collectionID`
  is answered (never torn down) whenever a code is available, and a
  request with a different non-null `collectionID` after a non-empty one
  was bound always tears the session down. -/
theorem advertise_listener_behavior
    (paired code : Option String) (senderId : String) (data : JSValue) :
    (truthyStr paired = true → paired ≠ extractCollectionID data →
      (incomingMessageListener paired code senderId data).action =
          .restart "incoming request for a new collection" ∧
        (incomingMessageListener paired code senderId data).pairedCollectionID =
          paired) ∧
    (¬(truthyStr paired = true ∧ paired ≠ extractCollectionID data) →
      truthyStr code = false →
      (incomingMessageListener paired code senderId data).action =
          .restart "we got a pairing request when refreshing pairing codes" ∧
        (incomingMessageListener paired code senderId data).pairedCollectionID =
          extractCollectionID data) ∧
    (¬(truthyStr paired = true ∧ paired ≠ extractCollectionID data) →
      ∀ c, code = some c → c ≠ "" →
      (incomingMessageListener paired code senderId data).action =
          .reply senderId c ∧
        (incomingMessageListener paired code senderId data).pairedCollectionID =
          extractCollectionID data) ∧
    (paired = extractCollectionID data → ∀ c, code = some c → c ≠ "" →
      (incomingMessageListener paired code senderId data).action =
        .reply senderId c) ∧
    (∀ p c', paired = some p → p ≠ "" → extractCollectionID data = some c' →
      c' ≠ p →
      ((incomingMessageListener paired code senderId data).action).isRestart =
        true) := by
  unfold incomingMessageListener
  by_cases h1 : (truthyStr paired && !(paired == extractCollectionID data)) = true
  · have h2 : truthyStr paired = true ∧ paired ≠ extractCollectionID data := by
      simpa using h1
    refine ⟨fun _ _ => by simp [h1], fun hc _ => absurd h2 hc,
      fun hc => absurd h2 hc, fun he => absurd (h2.2 he) (fun h => h), ?_⟩
    intro p c' _ _ _ _
    simp [h1, ListenerAction.isRestart]
  · have h2 : ¬(truthyStr paired = true ∧ paired ≠ extractCollectionID data) := by
      simpa using h1
    rw [Bool.not_eq_true] at h1
    refine ⟨fun ht hne => absurd ⟨ht, hne⟩ h2, ?_, ?_, ?_, ?_⟩
    · intro _ hcode
      simp [h1, hcode]
    · intro _ c hc hne
      subst hc
      rw [if_neg (by simp [h1]), if_neg (by simp [truthyStr, hne])]
      exact ⟨rfl, rfl⟩
    · intro _ c hc hne
      subst hc
      rw [if_neg (by simp [h1]), if_neg (by simp [truthyStr, hne])]
      rfl
    · intro p c' hp hpne hext hne
      exfalso
      have ht : truthyStr paired = true := by simp [hp, truthyStr, hpne]
      have hne' : paired ≠ extractCollectionID data := by
        rw [hp, hext]
        intro h
        exact hne (Option.some.inj h).symm
      exact h2 ⟨ht, hne'⟩

/-- **C1, witness.** The amended theorem applied at a concrete bound
session, available code, and repeated `collectionID`: the reply carries
the code and the binding is unchanged. -/
theorem advertise_listener_behavior_witness :
    (incomingMessageListener (some "A") (some "654321") "sender-1"
        (JSValue.obj [("collectionID", JSValue.str "A")])).action =
      .reply "sender-1" "654321" := by
  have h := advertise_listener_behavior (some "A") (some "654321") "sender-1"
    (JSValue.obj [("collectionID", JSValue.str "A")])
  exact h.2.2.2.1 (by decide) "654321" rfl (by decide)

/-! ## C2 — the CredentialPoller (`getCastData`) -/

/-- **C2.** `getCastData` returns "no data" (`.ok none`) — not an error —
when the backend has no encrypted payload for the pairing code; when a
payload is present it is decrypted with the registration's keypair and
parsed, and any decryption, decode or parse failure is propagated to the
caller as a hard error (never turned into a "no data" result, and with no
internal retry: each collaborator is consulted at most once per call). -/
theorem getCastData_behavior
    (gw : String → Option String)
    (bso : String → String → String → Except String String)
    (atob : String → Except String String)
    (parseJSON : String → Except String JSValue) (reg : Registration) :
    (truthyStr (gw reg.pairingCode) = false →
      getCastData gw bso atob parseJSON reg = .ok none) ∧
    (∀ enc, gw reg.pairingCode = some enc → enc ≠ "" →
      (∀ e, bso enc reg.publicKeyB64 reg.privateKeyB64 = .error e →
        getCastData gw bso atob parseJSON reg = .error e) ∧
      (∀ d e, bso enc reg.publicKeyB64 reg.privateKeyB64 = .ok d →
        atob d = .error e →
        getCastData gw bso atob parseJSON reg = .error e) ∧
      (∀ d p e, bso enc reg.publicKeyB64 reg.privateKeyB64 = .ok d →
        atob d = .ok p → parseJSON p = .error e →
        getCastData gw bso atob parseJSON reg = .error e) ∧
      (∀ d p v, bso enc reg.publicKeyB64 reg.privateKeyB64 = .ok d →
        atob d = .ok p → parseJSON p = .ok v →
        getCastData gw bso atob parseJSON reg = .ok (some v))) := by
  constructor
  · intro h
    simp [getCastData, h, pure, Except.pure]
  · intro enc henc hne
    have htr : truthyStr (gw reg.pairingCode) = true := by
      simp [henc, truthyStr, hne]
    refine ⟨?_, ?_, ?_, ?_⟩
    · intro e hb
      simp [getCastData, henc, htr, truthyStr, hne, hb, Bind.bind, Except.bind,
        pure, Except.pure]
    · intro d e hb ha
      simp [getCastData, henc, htr, truthyStr, hne, hb, ha, Bind.bind,
        Except.bind, Functor.map, Except.map, pure, Except.pure]
    · intro d p e hb ha hp
      simp [getCastData, henc, htr, truthyStr, hne, hb, ha, hp, Bind.bind,
        Except.bind, Functor.map, Except.map, pure, Except.pure]
    · intro d p v hb ha hp
      simp [getCastData, henc, htr, truthyStr, hne, hb, ha, hp, Bind.bind,
        Except.bind, Functor.map, Except.map, pure, Except.pure]

/-- **C2, witness.** The all-successful path at concrete collaborators:
the decrypted, decoded and parsed payload is returned. -/
theorem getCastData_behavior_witness :
    getCastData (fun _ => some "ENC") (fun _ _ _ => .ok "B64")
        (fun _ => .ok "{}") (fun _ => .ok (.obj []))
        ⟨"code", "pub", "priv"⟩ =
      .ok (some (.obj [])) := by
  have h := getCastData_behavior (fun _ => some "ENC") (fun _ _ _ => .ok "B64")
    (fun _ => .ok "{}") (fun _ => .ok (.obj [])) ⟨"code", "pub", "priv"⟩
  exact (h.2 "ENC" rfl (by decide)).2.2.2 "B64" "{}" (.obj []) rfl rfl rfl

/-! ## C3 — the Registrar (`register`) -/

/-- If no attempt in the window `[i, i + fuel)` yields a truthy pairing
code, the retry loop is still running when the fuel runs out. -/
theorem registerLoop_none (attempts : Nat → RegisterAttempt) :
    ∀ fuel i, (∀ j, i ≤ j → j < i + fuel → ¬attemptSucceeds attempts j) →
      registerLoop attempts fuel i = none := by
  intro fuel
  induction fuel with
  | zero => intro i _; rfl
  | succ n ih =>
    intro i h
    have hi : ¬attemptSucceeds attempts i := h i le_rfl (by omega)
    unfold registerLoop
    cases hai : attempts i with
    | none => exact ih (i + 1) fun j h1 h2 => h j (by omega) (by omega)
    | some code =>
      have hcode : code = "" := by
        by_contra hc
        exact hi (by simp [attemptSucceeds, truthyStr, hai, hc])
      subst hcode
      simpa using ih (i + 1) fun j h1 h2 => h j (by omega) (by omega)

/-- If the first truthy attempt at or after `i` is attempt `k`, and the
fuel reaches it, the loop breaks there, having made `k + 1` calls in
total and waited 10 s between consecutive ones. -/
theorem registerLoop_first_success (attempts : Nat → RegisterAttempt) :
    ∀ fuel i k, i ≤ k → attemptSucceeds attempts k →
      (∀ j, i ≤ j → j < k → ¬attemptSucceeds attempts j) → k < i + fuel →
      registerLoop attempts fuel i =
        some ((attempts k).getD "", k + 1, 10000 * k) := by
  intro fuel
  induction fuel with
  | zero => intro i k h1 _ _ h4; omega
  | succ n ih =>
    intro i k hik hk hmin hlt
    unfold registerLoop
    rcases Nat.eq_or_lt_of_le hik with heq | hilt
    · subst heq
      cases hai : attempts i with
      | none =>
        rw [attemptSucceeds, hai] at hk
        exact absurd hk (by simp [truthyStr])
      | some code =>
        have hcode : ¬(code = "") := by
          rw [attemptSucceeds, hai] at hk
          simpa [truthyStr] using hk
        simp [hai, hcode]
    · have hi : ¬attemptSucceeds attempts i := hmin i le_rfl hilt
      cases hai : attempts i with
      | none =>
        exact ih (i + 1) k (by omega) hk
          (fun j hj1 hj2 => hmin j (by omega) hj2) (by omega)
      | some code =>
        have hcode : code = "" := by
          by_contra hc
          exact hi (by simp [attemptSucceeds, truthyStr, hai, hc])
        subst hcode
        simpa using ih (i + 1) k (by omega) hk
          (fun j hj1 hj2 => hmin j (by omega) hj2) (by omega)

/-- **C3.** `register` never gives up and makes at most one call at a
time: modelling the unbounded `while (true)` loop by its `fuel`-step
unrollings, if the attempt of index `k` (0-based) is the first to yield a
(truthy) pairing code then every unrolling long enough to reach it returns
the `Registration` carrying that code together with the generated keypair,
after exactly `k + 1` sequential calls and `k` fixed 10-second waits
(10000·k ms); and every unrolling that only covers failing attempts is
still running (the loop never terminates without a success). -/
theorem register_retries_until_success
    (keypair : String × String) (attempts : Nat → RegisterAttempt) (k : Nat)
    (hk : attemptSucceeds attempts k)
    (hmin : ∀ j, j < k → ¬attemptSucceeds attempts j) :
    (∀ fuel, k < fuel →
      register keypair attempts fuel =
        some (⟨(attempts k).getD "", keypair.1, keypair.2⟩, k + 1, 10000 * k)) ∧
    (∀ fuel, fuel ≤ k → register keypair attempts fuel = none) := by
  constructor
  · intro fuel hf
    unfold register
    rw [registerLoop_first_success attempts fuel 0 k (Nat.zero_le k) hk
      (fun j _ hj => hmin j hj) (by omega)]
    rfl
  · intro fuel hf
    unfold register
    rw [registerLoop_none attempts fuel 0 (fun j _ hj => hmin j (by omega))]
    rfl

/-- **C3, witness.** Two failing attempts followed by a success: three
calls, 20 s waited, the third attempt's code in the registration; and with
fuel for only the two failing attempts, the loop is still running. -/
theorem register_retries_until_success_witness :
    register ("pub", "priv") (fun j => if j < 2 then none else some "ABC123") 5 =
      some (⟨"ABC123", "pub", "priv"⟩, 3, 20000) ∧
    register ("pub", "priv") (fun j => if j < 2 then none else some "ABC123") 2 =
      none := by
  have h := register_retries_until_success ("pub", "priv")
    (fun j => if j < 2 then none else some "ABC123") 2 (by decide)
    (by intro j hj; interval_cases j <;> decide)
  exact ⟨by simpa using h.1 5 (by norm_num), h.2 2 le_rfl⟩

/-! ## C4 — paginated diff fetching (`getEncryptedCollectionFiles`) -/

/-- The non-deleted records of the page served at the `n`-th watermark. -/
def livePageAt (server : Nat → DiffPage) (n : Nat) : List EncryptedEnteFile :=
  liveRecords (server (watermarks server n))

/-- Characterization of the diff loop run from the `m`-th watermark: when
it returns, there is a last page index `n` such that the loop visited
exactly the watermarks `m..n`, accumulated exactly the non-deleted records
of the visited pages in order, all pages before the last reported
`hasMore`, and the last reported `hasMore = false`. -/
theorem diffLoop_trace (server : Nat → DiffPage) :
    ∀ fuel m files reqs res,
      diffLoop server fuel files (watermarks server m) reqs = some res →
      ∃ n, m ≤ n ∧ n < m + fuel ∧
        res.2 = reqs ++ (List.range' m (n + 1 - m)).map (watermarks server) ∧
        res.1 = files ++ ((List.range' m (n + 1 - m)).map (livePageAt server)).flatten ∧
        (∀ i, m ≤ i → i < n → (server (watermarks server i)).hasMore = true) ∧
        (server (watermarks server n)).hasMore = false := by
  intro fuel
  induction fuel with
  | zero => intro m files reqs res h; exact absurd h (by simp [diffLoop])
  | succ fl ih =>
    intro m files reqs res h
    unfold diffLoop at h
    by_cases hm : (server (watermarks server m)).hasMore = true
    · rw [if_pos hm] at h
      have hstep : advanceWatermark (server (watermarks server m))
          (watermarks server m) = watermarks server (m + 1) := rfl
      rw [hstep] at h
      obtain ⟨n, hn1, hn2, hreq, hfiles, hmore, hlast⟩ := ih (m + 1) _ _ res h
      rw [show n + 1 - (m + 1) = n - m from by omega] at hreq hfiles
      have hrange : List.range' m (n + 1 - m) = m :: List.range' (m + 1) (n - m) := by
        rw [show n + 1 - m = (n - m) + 1 from by omega, List.range'_succ]
      refine ⟨n, by omega, by omega, ?_, ?_, ?_, hlast⟩
      · rw [hreq, hrange]
        simp
      · rw [hfiles, hrange]
        simp [livePageAt]
      · intro i hi1 hi2
        rcases Nat.eq_or_lt_of_le hi1 with he | hl
        · rw [← he]; exact hm
        · exact hmore i hl hi2
    · rw [if_neg hm] at h
      rw [Option.some_inj] at h
      refine ⟨m, le_rfl, by omega, ?_, ?_, fun i h1 h2 => absurd h2 (by omega),
        by simpa using hm⟩
      · rw [← h]
        simp
      · rw [← h]
        simp [livePageAt]

/-- **C4.** General pagination correctness: every completed run of
`getEncryptedCollectionFiles` starts from watermark 0, visits the pages at
the successive watermarks (each the max `updationTime` seen so far,
starting from the previous watermark), accumulates exactly the non-deleted
records of every visited page in order, and stops exactly at the first
page reporting `hasMore = false`. Concretely, for the two diff pages
`[{items:[rec1@4, rec2@5], hasMore:true}, {items:[rec3@7], hasMore:false}]`
(none deleted) the assembled listing is `[rec1, rec2, rec3]`, the
requested watermarks are `[0, 5]`, and no record is fetched twice. -/
theorem getEncryptedCollectionFiles_pagination :
    (∀ (server : Nat → DiffPage) (fuel : Nat)
        (res : List EncryptedEnteFile × List Nat),
      getEncryptedCollectionFiles server fuel = some res →
      ∃ n, n < fuel ∧
        res.2 = (List.range (n + 1)).map (watermarks server) ∧
        res.1 = ((List.range (n + 1)).map (livePageAt server)).flatten ∧
        (∀ i, i < n → (server (watermarks server i)).hasMore = true) ∧
        (server (watermarks server n)).hasMore = false) ∧
    getEncryptedCollectionFiles diffServerEx 10 =
      some ([mkEncRecord 1 4, mkEncRecord 2 5, mkEncRecord 3 7], [0, 5]) ∧
    ([mkEncRecord 1 4, mkEncRecord 2 5, mkEncRecord 3 7].map
      EncryptedEnteFile.id).Nodup := by
  refine ⟨?_, by decide, by decide⟩
  intro server fuel res h
  have h0 : (0 : Nat) = watermarks server 0 := rfl
  rw [getEncryptedCollectionFiles, h0] at h
  obtain ⟨n, _, hn2, hreq, hfiles, hmore, hlast⟩ :=
    diffLoop_trace server fuel 0 [] [] res h
  refine ⟨n, by omega, ?_, ?_, fun i hi => hmore i (Nat.zero_le i) hi, hlast⟩
  · rw [hreq]
    simp [List.range_eq_range']
  · rw [hfiles]
    simp [List.range_eq_range']

/-- **C4, witness.** The general pagination theorem applied to the
concrete two-page server. -/
theorem getEncryptedCollectionFiles_pagination_witness :
    ∃ n, n < 10 ∧
      ([0, 5] : List Nat) = (List.range (n + 1)).map (watermarks diffServerEx) ∧
      [mkEncRecord 1 4, mkEncRecord 2 5, mkEncRecord 3 7] =
        ((List.range (n + 1)).map (livePageAt diffServerEx)).flatten ∧
      (∀ i, i < n → (diffServerEx (watermarks diffServerEx i)).hasMore = true) ∧
      (diffServerEx (watermarks diffServerEx n)).hasMore = false := by
  have h := getEncryptedCollectionFiles_pagination
  exact h.1 diffServerEx 10 _ h.2.1

/-! ## C5 — per-file error handling in the streaming cycle -/

/-- **C5, counterexample.** The claim states that every individual
per-file error — decode, fetch, or decrypt, *including failure to decrypt
the file key or metadata of a record* — is swallowed and the file skipped,
never terminating the generator with an error. In the code
`decryptEnteFile` runs *outside* the try/catch that protects
`createRenderableURL`: with a render step that always succeeds, a single
record whose file-key decryption fails aborts the pass and ends the
generator in an error. -/
theorem streaming_decrypt_error_aborts :
    (renderableImageURLs (fun _ => .ok [mkEncRecord 1 4]) failingKeyWorker
        (fun _ => .ok "url-1") ⟨"ck", "tok"⟩ 3).2 =
      .errored "file key decryption failed" ∧
    (processPass failingKeyWorker (fun _ => .ok "url-1") "ck"
        [mkEncRecord 1 4] initialPassState).2 =
      some "file key decryption failed" := by
  decide

/-- **C5, amended.** Within a streaming cycle, a per-file error thrown
while producing the renderable URL (download, content decryption,
live-photo decoding, MIME detection — everything behind
`createRenderableURL`, abstracted as `render`) is swallowed and the file
skipped, leaving the pass state untouched; a pass over records that all
decrypt successfully never aborts, whatever the render outcomes. But a
failure of `decryptEnteFile` itself (file key or metadata decryption) is
not caught: it aborts the pass right there with that error. -/
theorem processPass_error_handling
    (w : CryptoWorker) (render : EnteFile → Except String String)
    (ck : String) :
    (∀ ef rest s e, decryptEnteFile w ef ck = .error e →
      processPass w render ck (ef :: rest) s = (s, some e)) ∧
    (∀ ef rest s file err, decryptEnteFile w ef ck = .ok file →
      isFileEligibleForCast file = true → render file = .error err →
      processPass w render ck (ef :: rest) s = processPass w render ck rest s) ∧
    (∀ files s,
      (∀ ef, ef ∈ files → ∃ file, decryptEnteFile w ef ck = .ok file) →
      (processPass w render ck files s).2 = none) := by
  refine ⟨?_, ?_, ?_⟩
  · intro ef rest s e he
    simp [processPass, he]
  · intro ef rest s file err hd hel hr
    simp [processPass, hd, hel, hr]
  · intro files
    induction files with
    | nil => intro s _; rfl
    | cons ef rest ih =>
      intro s hall
      obtain ⟨file, hfile⟩ := hall ef (by simp)
      have hrest : ∀ ef2, ef2 ∈ rest → ∃ f2, decryptEnteFile w ef2 ck = .ok f2 :=
        fun ef2 h2 => hall ef2 (by simp [h2])
      by_cases hel : isFileEligibleForCast file = true
      · cases hr : render file with
        | error err =>
          simp only [processPass, hfile, hel, hr]
          exact ih _ hrest
        | ok url =>
          simp only [processPass, hfile, hel, hr]
          cases hbuf : s.urlsBuffer with
          | nil => simpa [hbuf] using ih _ hrest
          | cons u us => simpa [hbuf] using ih _ hrest
      · rw [Bool.not_eq_true] at hel
        simp only [processPass, hfile, hel]
        simpa using ih _ hrest

/-- **C5, witness.** The amended theorem at concrete inputs: a record that
decrypts to an eligible image but fails to render is skipped with the
state unchanged, and a pass over it ends without error. -/
theorem processPass_error_handling_witness :
    processPass imageWorker (fun _ => .error "fetch failed") "ck"
        [mkEncRecord 1 4] initialPassState =
      processPass imageWorker (fun _ => .error "fetch failed") "ck"
        [] initialPassState ∧
    (processPass imageWorker (fun _ => .error "fetch failed") "ck"
        [mkEncRecord 1 4] initialPassState).2 = none := by
  have h := processPass_error_handling imageWorker
    (fun _ => .error "fetch failed") "ck"
  constructor
  · exact h.2.1 (mkEncRecord 1 4) [] initialPassState
      ⟨1, "filekey", ⟨FILE_TYPE.IMAGE, "photo.jpeg", 100⟩, none, none, ⟨1000⟩, 4⟩
      "fetch failed" rfl (by decide) rfl
  · refine h.2.2 [mkEncRecord 1 4] initialPassState ?_
    intro ef hef
    rw [List.mem_singleton] at hef
    subst hef
    exact ⟨⟨1, "filekey", ⟨FILE_TYPE.IMAGE, "photo.jpeg", 100⟩, none, none,
      ⟨1000⟩, 4⟩, rfl⟩

/-! ## C6 — the eligibility filter (`isFileEligibleForCast`) -/

/-- **C6.** A file is eligible for cast if and only if its type is image
or live photo, its size is within the fixed 100 MiB ceiling, and its
title's extension is not a known non-web-renderable image extension; in
particular the 150 MiB image is excluded, the 50 MiB image with a
renderable extension is included, the video is excluded, and the live
photo is included. -/
theorem isFileEligibleForCast_spec :
    (∀ file : EnteFile, isFileEligibleForCast file = true ↔
      (isImageOrLivePhoto file = true ∧
       file.info.fileSize ≤ 100 * 1024 * 1024 ∧
       isNonWebImageFileExtension (nameAndExtension file.metadata.title).2 =
         false)) ∧
    isFileEligibleForCast image150MiB = false ∧
    isFileEligibleForCast image50MiB = true ∧
    isFileEligibleForCast videoFile = false ∧
    isFileEligibleForCast livePhotoFile = true := by
  refine ⟨?_, by decide, by decide, by decide, by decide⟩
  intro file
  unfold isFileEligibleForCast
  constructor
  · intro h
    by_cases h1 : isImageOrLivePhoto file = true
    · by_cases h2 : file.info.fileSize > 100 * 1024 * 1024
      · simp [h1, h2] at h
      · by_cases h3 : isNonWebImageFileExtension
            (nameAndExtension file.metadata.title).2 = true
        · simp [h1, h2, h3] at h
        · exact ⟨h1, by omega, by simpa using h3⟩
    · simp [h1] at h
  · rintro ⟨h1, h2, h3⟩
    have h2' : ¬(file.info.fileSize > 100 * 1024 * 1024) := by omega
    simp [h1, h2', h3]

/-- **C6, witness.** The characterization applied to the concrete 50 MiB
image: included. -/
theorem isFileEligibleForCast_spec_witness :
    isFileEligibleForCast image50MiB = true :=
  (isFileEligibleForCast_spec.1 image50MiB).mpr
    ⟨by decide, by decide, by decide⟩

/-! ## C7 — bounded retention of vended handles -/

/-- The retention fold in closed form, from any admissible state: the live
queue always consists of the last (at most) two handles of the emission
history, and the revoked list of all earlier ones, in emission order. -/
theorem retention_foldl (urls : List String) :
    ∀ prev rev, prev.length ≤ 2 →
      List.foldl retentionStep (prev, rev) urls =
        ((prev ++ urls).drop (prev.length + urls.length - 2),
         rev ++ (prev ++ urls).take (prev.length + urls.length - 2)) := by
  induction urls with
  | nil =>
    intro prev rev hlen
    rw [show prev.length + [].length - 2 = 0 from by simp; omega]
    simp
  | cons u us ih =>
    intro prev rev hlen
    rw [List.foldl_cons]
    rcases prev with _ | ⟨a, prev2⟩
    · rw [show retentionStep ([], rev) u = ([u], rev) from rfl,
        ih [u] rev (by simp)]
      simp only [List.nil_append, List.singleton_append, List.length_cons,
        List.length_nil, List.length_singleton]
      rw [show 1 + us.length - 2 = us.length + 1 - 2 from by omega,
        show (0 : Nat) + (us.length + 1) - 2 = us.length + 1 - 2 from by omega]
    · rcases prev2 with _ | ⟨b, prev3⟩
      · rw [show retentionStep ([a], rev) u = ([a, u], rev) from rfl,
          ih [a, u] rev (by simp)]
        simp only [List.cons_append, List.nil_append, List.singleton_append,
          List.length_cons, List.length_nil, List.length_singleton]
        rw [show 2 + us.length - 2 = 1 + (us.length + 1) - 2 from by omega]
      · rcases prev3 with _ | ⟨c, prev4⟩
        · rw [show retentionStep ([a, b], rev) u = ([b, u], rev ++ [a]) from rfl,
            ih [b, u] (rev ++ [a]) (by simp)]
          simp only [List.cons_append, List.nil_append, List.length_cons,
            List.length_nil]
          rw [show 2 + us.length - 2 = us.length from by omega,
            show 2 + (us.length + 1) - 2 = us.length + 1 from by omega,
            Prod.mk.injEq]
          constructor
          · rw [show (a :: b :: u :: us).drop (us.length + 1) =
              (b :: u :: us).drop us.length from rfl]
          · rw [show (a :: b :: u :: us).take (us.length + 1) =
              a :: (b :: u :: us).take us.length from rfl]
            simp
        · exfalso
          simp at hlen

/-- The retention state after the emissions in `urls`, in closed form. -/
theorem retentionRun_eq (urls : List String) :
    retentionRun urls =
      (urls.drop (urls.length - 2), urls.take (urls.length - 2)) := by
  rw [retentionRun, retention_foldl urls [] [] (by simp)]
  simp

/-- **C7.** Bounded retention: at every yield the `previousURLs` retention
queue holds at most 2 live handles (in particular after the third emission
and beyond), and a handle that has been revoked and removed by some yield
never reappears in the retention queue at any later yield — stated over
every pair of instants `m ≤ n` of an emission history of distinct handles
(`URL.createObjectURL` returns fresh URLs). -/
theorem retention_bounded
    (urls : List String) (m n : Nat) (hmn : m ≤ n) (hnd : urls.Nodup) :
    (retentionRun (urls.take n)).1.length ≤ 2 ∧
    ∀ x, x ∈ (retentionRun (urls.take m)).2 →
      x ∉ (retentionRun (urls.take n)).1 := by
  rw [retentionRun_eq, retentionRun_eq]
  constructor
  · simp only [List.length_drop]
    omega
  · intro x hx
    simp only at hx ⊢
    have hk : (urls.take m).length - 2 ≤ (urls.take n).length - 2 := by
      simp only [List.length_take]
      omega
    have hsame : (urls.take m).take ((urls.take m).length - 2) =
        (urls.take n).take ((urls.take m).length - 2) := by
      rw [List.take_take, List.take_take]
      congr 1
      simp only [List.length_take]
      omega
    rw [hsame] at hx
    have hnd2 : (urls.take n).Nodup := hnd.sublist (List.take_sublist n urls)
    exact fun hmem =>
      (List.disjoint_take_drop hnd2 hk) hx hmem

/-- **C7, witness.** Four distinct emissions: the queue at the end holds
two handles, and the handle revoked by the third emission is gone from
every later retention set. -/
theorem retention_bounded_witness :
    (retentionRun (["u1", "u2", "u3", "u4"].take 4)).1.length ≤ 2 ∧
    "u1" ∉ (retentionRun (["u1", "u2", "u3", "u4"].take 4)).1 := by
  have h := retention_bounded ["u1", "u2", "u3", "u4"] 3 4 (by omega) (by decide)
  exact ⟨h.1, h.2 "u1" (by decide)⟩

/-! ## C8 — the persisted local state -/

/-- Looking up a key other than the one just written reads through to the
rest of the store. -/
theorem find_filter_other (k key : String) (hne : key ≠ k) :
    ∀ store : LocalStorage,
      List.find? (fun kv => kv.1 == key)
          (store.filter fun kv => !(kv.1 == k)) =
        List.find? (fun kv => kv.1 == key) store := by
  intro store
  induction store with
  | nil => rfl
  | cons kv rest ih =>
    rw [List.filter_cons]
    by_cases h1 : kv.1 = k
    · have h2 : (kv.1 == key) = false := by
        refine beq_eq_false_iff_ne.mpr ?_
        rw [h1]
        exact fun h => hne h.symm
      rw [if_neg (by simp [h1]), ih]
      simp [List.find?_cons, h2]
    · rw [if_pos (by simp [h1])]
      simp only [List.find?_cons]
      cases hkv : (kv.1 == key) <;> simp [hkv, ih]

/-- `getItem` after `setItem`: the written key reads back the written
value, every other key is unaffected. -/
theorem getItem_setItem (store : LocalStorage) (k v key : String) :
    getItem (setItem store k v) key =
      if key = k then some v else getItem store key := by
  by_cases h : key = k
  · subst h
    simp [getItem, setItem, List.find?]
  · simp only [getItem, setItem, List.find?, if_neg h]
    have hh : ¬(k = key) := fun he => h he.symm
    simp only [show (k == key) = false by simpa using hh]
    rw [find_filter_other k key h store]

/-- The keys readable after `storeCastData`'s write loop are exactly the
payload's keys plus whatever was already readable. -/
theorem getItem_store_loop (key : String) :
    ∀ (fields : List (String × JSValue)) (store : LocalStorage),
      (getItem (fields.foldl
          (fun st kv => setItem st kv.1 kv.2.coerceToString) store) key ≠ none ↔
        (key ∈ fields.map Prod.fst ∨ getItem store key ≠ none)) := by
  intro fields
  induction fields with
  | nil => intro store; simp
  | cons kv rest ih =>
    intro store
    rw [List.foldl_cons]
    rw [ih (setItem store kv.1 kv.2.coerceToString)]
    rw [getItem_setItem]
    by_cases h : key = kv.1
    · simp [h]
    · simp [h, fun he : kv.1 = key => h he.symm]

/-- **C8, counterexample.** The claim states that the persisted state
written by `storeCastData` consists of exactly the two entries
`collectionKey` and `castToken` and that nothing else is written. The code
iterates through *all* keys of the payload object: a payload with an extra
key writes a third entry. -/
theorem storeCastData_writes_extra_keys :
    storeCastData []
        (.obj [("collectionKey", .str "ck"), ("castToken", .str "ct"),
          ("somethingElse", .str "x")]) =
      .ok [("somethingElse", "x"), ("castToken", "ct"),
        ("collectionKey", "ck")] ∧
    getItem [("somethingElse", "x"), ("castToken", "ct"),
        ("collectionKey", "ck")] "somethingElse" = some "x" :=
  ⟨rfl, rfl⟩

/-- **C8, amended.** `storeCastData` throws unless the payload is an
object, and otherwise writes *every* key of the payload object to the
local store — exactly the two entries `collectionKey` and `castToken` when
(and only when) those are exactly the payload's keys. `readCastData`
returns the `collectionKey` and `castToken` entries and throws if either
is absent. -/
theorem storeCastData_readCastData_behavior :
    (∀ (fields : List (String × JSValue)) (key : String)
        (st : LocalStorage), storeCastData [] (.obj fields) = .ok st →
      (getItem st key ≠ none ↔ key ∈ fields.map Prod.fst)) ∧
    (∀ (store : LocalStorage) (payload : JSValue),
      (∀ fields, payload ≠ JSValue.obj fields) →
      storeCastData store payload = .error "Unexpected cast data") ∧
    (∀ (store : LocalStorage) (ck ct : String),
      getItem store "collectionKey" = some ck →
      getItem store "castToken" = some ct →
      readCastData store = .ok ⟨ck, ct⟩) ∧
    (∀ store : LocalStorage, getItem store "collectionKey" = none →
      readCastData store = .error "Not a string") ∧
    (∀ (store : LocalStorage) (ck : String),
      getItem store "collectionKey" = some ck →
      getItem store "castToken" = none →
      readCastData store = .error "Not a string") := by
  refine ⟨?_, ?_, ?_, ?_, ?_⟩
  · intro fields key st hst
    have : st = fields.foldl
        (fun st kv => setItem st kv.1 kv.2.coerceToString) [] := by
      simpa [storeCastData] using hst.symm
    subst this
    rw [getItem_store_loop key fields []]
    simp [getItem]
  · intro store payload h
    cases payload with
    | obj fields => exact absurd rfl (h fields)
    | undefined => rfl
    | null => rfl
    | bool b => rfl
    | num n => rfl
    | str s => rfl
  · intro store ck ct h1 h2
    simp [readCastData, h1, h2, ensureString, Bind.bind, Except.bind, pure,
      Except.pure]
  · intro store h1
    simp [readCastData, h1, ensureString, Bind.bind, Except.bind]
  · intro store ck h1 h2
    simp [readCastData, h1, h2, ensureString, Bind.bind, Except.bind]

/-- **C8, witness.** The amended theorem at the normal pairing payload:
after storing `{collectionKey, castToken}` the extra key reads back
nothing, and `readCastData` returns the two stored values. -/
theorem storeCastData_readCastData_behavior_witness :
    getItem [("castToken", "ct"), ("collectionKey", "ck")] "extra" = none ∧
    readCastData [("castToken", "ct"), ("collectionKey", "ck")] =
      .ok ⟨"ck", "ct"⟩ := by
  have h := storeCastData_readCastData_behavior
  constructor
  · have h2 := h.1 [("collectionKey", .str "ck"), ("castToken", .str "ct")]
      "extra" [("castToken", "ct"), ("collectionKey", "ck")] rfl
    by_contra hc
    exact (by decide :
      ¬("extra" ∈ ([("collectionKey", JSValue.str "ck"),
        ("castToken", JSValue.str "ct")].map Prod.fst))) (h2.mp hc)
  · exact h.2.2.1 _ "ck" "ct" (by decide) (by decide)

/-! ## C9 — termination on a cycle with nothing to show -/

/-- A pass over records that all decrypt to ineligible files does nothing:
no yield, no error, state unchanged, `haveEligibleFiles` still false. -/
theorem processPass_all_ineligible
    (w : CryptoWorker) (render : EnteFile → Except String String)
    (ck : String) :
    ∀ (files : List EncryptedEnteFile) (s : PassState),
      (∀ ef, ef ∈ files → ∃ file, decryptEnteFile w ef ck = .ok file ∧
        isFileEligibleForCast file = false) →
      processPass w render ck files s = (s, none) := by
  intro files
  induction files with
  | nil => intro s _; rfl
  | cons ef rest ih =>
    intro s hall
    obtain ⟨file, hd, hel⟩ := hall ef (by simp)
    simp only [processPass, hd, hel]
    exact ih s fun ef2 h2 => hall ef2 (by simp [h2])

/-- **C9.** If the first cycle's listing decrypts entirely to ineligible
records, the generator ends the sequence cleanly (`.completed`, not an
error) after exactly that one pass, with nothing yielded and no further
cycle started — the result is the same for every sufficient fuel. And a
cycle whose pass emitted at least one handle (no error and
`haveEligibleFiles` set) is followed by a new cycle. -/
theorem generator_empty_cycle_terminates
    (fetchCycle : Nat → Except String (List EncryptedEnteFile))
    (w : CryptoWorker) (render : EnteFile → Except String String)
    (ck : String) :
    (∀ files, fetchCycle 0 = .ok files →
      (∀ ef, ef ∈ files → ∃ file, decryptEnteFile w ef ck = .ok file ∧
        isFileEligibleForCast file = false) →
      ∀ fuel, 1 ≤ fuel →
        runGenerator fetchCycle w render ck fuel 0 initialPassState =
          (initialPassState, .completed)) ∧
    (∀ fuel cycle s files s', fetchCycle cycle = .ok files →
      processPass w render ck files { s with haveEligibleFiles := false } =
        (s', none) →
      s'.haveEligibleFiles = true →
      runGenerator fetchCycle w render ck (fuel + 1) cycle s =
        runGenerator fetchCycle w render ck fuel (cycle + 1) s') := by
  constructor
  · intro files hfetch hall fuel hfuel
    cases fuel with
    | zero => omega
    | succ n =>
      simp only [runGenerator, hfetch]
      rw [show ({ initialPassState with haveEligibleFiles := false }
          : PassState) = initialPassState from rfl]
      rw [processPass_all_ineligible w render ck files initialPassState hall]
      rfl
  · intro fuel cycle s files s' hfetch hpass hflag
    simp only [runGenerator, hfetch, hpass, hflag, if_true]

/-- **C9, witness.** One record decrypting to a (ineligible) video: the
generator completes cleanly after one pass, yielding nothing, with fuel to
spare. -/
theorem generator_empty_cycle_terminates_witness :
    runGenerator (fun _ => .ok [mkEncRecord 1 4]) videoWorker
        (fun _ => .ok "url-1") "ck" 3 0 initialPassState =
      (initialPassState, .completed) := by
  have h := generator_empty_cycle_terminates (fun _ => .ok [mkEncRecord 1 4])
    videoWorker (fun _ => .ok "url-1") "ck"
  refine h.1 [mkEncRecord 1 4] rfl ?_ 3 (by omega)
  intro ef hef
  rw [List.mem_singleton] at hef
  subst hef
  exact ⟨⟨1, "filekey", ⟨FILE_TYPE.VIDEO, "video.mp4", 100⟩, none, none,
    ⟨1000⟩, 4⟩, rfl, by decide⟩

/-! ## C10 — the "next" preload URL is always empty -/

/-- The pass only ever appends yielded pairs whose second component is the
constant `""`. -/
theorem processPass_yield_empty_next
    (w : CryptoWorker) (render : EnteFile → Except String String)
    (ck : String) :
    ∀ (files : List EncryptedEnteFile) (s : PassState),
      (∀ p, p ∈ s.yielded → p.2 = "") →
      ∀ p, p ∈ (processPass w render ck files s).1.yielded → p.2 = "" := by
  intro files
  induction files with
  | nil => intro s hs; exact hs
  | cons ef rest ih =>
    intro s hs
    cases hd : decryptEnteFile w ef ck with
    | error e =>
      simp only [processPass, hd]
      exact hs
    | ok file =>
      by_cases hel : isFileEligibleForCast file = true
      · cases hr : render file with
        | error err =>
          simp only [processPass, hd, hel, hr]
          exact ih s hs
        | ok url =>
          simp only [processPass, hd, hel, hr]
          cases hbuf : s.urlsBuffer with
          | nil =>
            simp only [List.nil_append]
            refine ih _ ?_
            intro p hp
            rcases List.mem_append.mp hp with h1 | h2
            · exact hs p h1
            · rw [List.mem_singleton] at h2
              rw [h2]
          | cons u2 us2 =>
            simp only [List.cons_append]
            refine ih _ ?_
            intro p hp
            rcases List.mem_append.mp hp with h1 | h2
            · exact hs p h1
            · rw [List.mem_singleton] at h2
              rw [h2]
      · rw [Bool.not_eq_true] at hel
        simp only [processPass, hd, hel]
        exact ih s hs

/-- The generator preserves the empty-next invariant across cycles. -/
theorem runGenerator_yield_empty_next
    (fetchCycle : Nat → Except String (List EncryptedEnteFile))
    (w : CryptoWorker) (render : EnteFile → Except String String)
    (ck : String) :
    ∀ (fuel cycle : Nat) (s : PassState),
      (∀ p, p ∈ s.yielded → p.2 = "") →
      ∀ p, p ∈ (runGenerator fetchCycle w render ck fuel cycle s).1.yielded →
        p.2 = "" := by
  intro fuel
  induction fuel with
  | zero => intro cycle s hs; exact hs
  | succ n ih =>
    intro cycle s hs
    cases hfetch : fetchCycle cycle with
    | error e =>
      simp only [runGenerator, hfetch]
      exact hs
    | ok files =>
      simp only [runGenerator, hfetch]
      have hpass := processPass_yield_empty_next w render ck files
        { s with haveEligibleFiles := false } hs
      cases hres : processPass w render ck files
          { s with haveEligibleFiles := false } with
      | mk s2 err =>
        rw [hres] at hpass
        cases err with
        | some e => exact hpass
        | none =>
          by_cases hflag : s2.haveEligibleFiles = true
          · simp only [hflag, if_true]
            exact ih (cycle + 1) s2 hpass
          · rw [Bool.not_eq_true] at hflag
            simp only [hflag]
            exact hpass

/-- **C10.** Every pair yielded by `renderableImageURLs` carries the empty
string as its second ("next" preload) component: preloading is not
implemented (`const nextURL = ""` with the `ensure(urls[0])` variant
commented out), so no yielded pair ever has a non-empty next URL. -/
theorem renderableImageURLs_next_always_empty
    (fetchCycle : Nat → Except String (List EncryptedEnteFile))
    (w : CryptoWorker) (render : EnteFile → Except String String)
    (castData : CastData) (fuel : Nat) :
    ∀ p, p ∈ (renderableImageURLs fetchCycle w render castData fuel).1.yielded →
      p.2 = "" := by
  apply runGenerator_yield_empty_next
  intro p hp
  simp [initialPassState] at hp

/-- **C10, witness.** A run that yields one pair: the pair is
`("url-1", "")` and the theorem evaluates its next component to `""`. -/
theorem renderableImageURLs_next_always_empty_witness :
    (renderableImageURLs (fun _ => .ok [mkEncRecord 1 4]) imageWorker
        (fun _ => .ok "url-1") ⟨"ck", "tok"⟩ 1).1.yielded =
      [("url-1", "")] ∧
    (("url-1", "") : String × String).2 = "" := by
  refine ⟨by decide, ?_⟩
  exact renderableImageURLs_next_always_empty (fun _ => .ok [mkEncRecord 1 4])
    imageWorker (fun _ => .ok "url-1") ⟨"ck", "tok"⟩ 1 ("url-1", "")
    (by decide)

end Cast
